import Mathlib

/-!
Verification of the conversation-engine core of grokparty-web
(`src/features/conversation/conversationEngine.ts`), shallowly embedded in
Lean 4.  Strings are modelled as lists of characters; the four citation
regular-expression substitutions and the three whitespace substitutions of
`stripCitationArtifacts` are embedded as fuel-indexed scanners that mirror
the leftmost, greedy, global semantics of JavaScript `String.replace`.
-/

/-- JavaScript strings, modelled as lists of characters. -/
abbrev Str := List Char

/-- The characters of the JavaScript `[ \t]` character class. -/
def isHT (c : Char) : Bool := c = ' ' || c = '\t'

/-- The characters of the JavaScript `\s` character class (also the set
trimmed by `String.prototype.trim`). -/
def isJsWS (c : Char) : Bool :=
  c = ' ' || c = '\t' || c = '\n' || c = '\r' || c = '\x0b' || c = '\x0c' ||
  c = '\u00A0' || c = '\u1680' || (0x2000 ≤ c.toNat && c.toNat ≤ 0x200A) ||
  c = '\u2028' || c = '\u2029' || c = '\u202F' || c = '\u205F' ||
  c = '\u3000' || c = '\uFEFF'

/-- `value.trim()` of JavaScript. -/
def jsTrim (s : Str) : Str :=
  ((s.dropWhile isJsWS).reverse.dropWhile isJsWS).reverse

/-- The suffix of `l` that follows its last newline (all of `l` when `l` has
no newline).  Used to model a greedy `\s+\n` match, which consumes a
whitespace run up to and including its last newline. -/
def afterLastNewline (l : Str) : Str :=
  (l.reverse.takeWhile (fun c => !(c = '\n'))).reverse

/-- One global pass of `value.replace(/\[\d+\]/g, '')`
(`CITATION_STANDALONE_REGEX`), as a fuel-indexed scanner.  The fuel strictly
exceeds the number of characters still to be scanned, so `fuel = s.length`
always suffices. -/
def stripStandaloneGo : Nat → Str → Str
  | 0, s => s
  | _ + 1, [] => []
  | fuel + 1, c :: rest =>
    if c = '[' then
      let ds := rest.takeWhile Char.isDigit
      let r1 := rest.dropWhile Char.isDigit
      match r1 with
      | ']' :: r2 =>
        if ds.isEmpty then c :: stripStandaloneGo fuel rest
        else stripStandaloneGo fuel r2
      | _ => c :: stripStandaloneGo fuel rest
    else c :: stripStandaloneGo fuel rest

/-- One global pass of `value.replace(/\[\d+\]\([^)]*\)/g, '')`
(`CITATION_WITH_URL_REGEX`). -/
def stripWithUrlGo : Nat → Str → Str
  | 0, s => s
  | _ + 1, [] => []
  | fuel + 1, c :: rest =>
    if c = '[' then
      let ds := rest.takeWhile Char.isDigit
      let r1 := rest.dropWhile Char.isDigit
      match r1 with
      | ']' :: '(' :: r2 =>
        if ds.isEmpty then c :: stripWithUrlGo fuel rest
        else
          match r2.dropWhile (fun x => !(x = ')')) with
          | ')' :: r3 => stripWithUrlGo fuel r3
          | _ => c :: stripWithUrlGo fuel rest
      | _ => c :: stripWithUrlGo fuel rest
    else c :: stripWithUrlGo fuel rest

/-- One global pass of `value.replace(/!\[\d+\]\([^)]*\)/g, '')`
(`CITATION_IMAGE_REGEX`). -/
def stripImageGo : Nat → Str → Str
  | 0, s => s
  | _ + 1, [] => []
  | fuel + 1, c :: rest =>
    if c = '!' then
      match rest with
      | '[' :: r0 =>
        let ds := r0.takeWhile Char.isDigit
        let r1 := r0.dropWhile Char.isDigit
        match r1 with
        | ']' :: '(' :: r2 =>
          if ds.isEmpty then c :: stripImageGo fuel rest
          else
            match r2.dropWhile (fun x => !(x = ')')) with
            | ')' :: r3 => stripImageGo fuel r3
            | _ => c :: stripImageGo fuel rest
        | _ => c :: stripImageGo fuel rest
      | _ => c :: stripImageGo fuel rest
    else c :: stripImageGo fuel rest

/-- Attempts to match `\[\d+\]:\s*https?:\/\/\S+\s*(?:\n|$)`
(`CITATION_DEFINITION_REGEX`, flags `gm`) at the start of `s` (a line
start).  Returns the remaining input after the match, or `none`.  The
trailing `\s*(?:\n|$)` consumes, greedily, the whitespace run following the
URL token up to and including its last newline, or the whole run when the
string ends inside it; when that run contains no newline and is followed by
further text the whole match fails. -/
def matchCitationDefinition (s : Str) : Option Str :=
  match s with
  | '[' :: r0 =>
    let ds := r0.takeWhile Char.isDigit
    let r1 := r0.dropWhile Char.isDigit
    if ds.isEmpty then none
    else
      match r1 with
      | ']' :: ':' :: r2 =>
        let r3 := r2.dropWhile isJsWS
        match r3 with
        | 'h' :: 't' :: 't' :: 'p' :: r4 =>
          let r5 :=
            match r4 with
            | 's' :: ':' :: '/' :: '/' :: r5 => some r5
            | ':' :: '/' :: '/' :: r5 => some r5
            | _ => none
          match r5 with
          | none => none
          | some r5 =>
            let tok := r5.takeWhile (fun x => !(isJsWS x))
            let r6 := r5.dropWhile (fun x => !(isJsWS x))
            if tok.isEmpty then none
            else
              let w := r6.takeWhile isJsWS
              let r7 := r6.dropWhile isJsWS
              if r7.isEmpty then some []
              else if w.contains '\n' then some (afterLastNewline w ++ r7)
              else none
        | _ => none
      | _ => none
  | _ => none

/-- One global pass of `value.replace(CITATION_DEFINITION_REGEX, '')`:
the pattern is anchored with a multiline `^`, so candidate matches start
only at line starts; a line that does not match is emitted unchanged. -/
def stripDefinitionGo : Nat → Str → Str
  | 0, s => s
  | _ + 1, [] => []
  | fuel + 1, s =>
    match matchCitationDefinition s with
    | some rest => stripDefinitionGo fuel rest
    | none =>
      let line := s.takeWhile (fun x => !(x = '\n'))
      match s.dropWhile (fun x => !(x = '\n')) with
      | '\n' :: rest => line ++ '\n' :: stripDefinitionGo fuel rest
      | _ => line

/-- One global pass of `next.replace(/[ \t]{2,}/g, ' ')`: every maximal run
of two or more horizontal whitespace characters becomes a single space. -/
def collapseHorizGo : Nat → Str → Str
  | 0, s => s
  | _ + 1, [] => []
  | fuel + 1, c :: rest =>
    if isHT c then
      let run := c :: rest.takeWhile isHT
      let after := rest.dropWhile isHT
      (if 2 ≤ run.length then [' '] else run) ++ collapseHorizGo fuel after
    else c :: collapseHorizGo fuel rest

/-- One global pass of `next.replace(/\s+\n/g, '\n')`: inside every maximal
whitespace run that contains a newline, the greedy leftmost match consumes
the run from its start through its last newline and is replaced by a single
newline. -/
def collapseWsNlGo : Nat → Str → Str
  | 0, s => s
  | _ + 1, [] => []
  | fuel + 1, c :: rest =>
    if isJsWS c then
      let run := c :: rest.takeWhile isJsWS
      let after := rest.dropWhile isJsWS
      (if run.contains '\n' then '\n' :: afterLastNewline run else run) ++
        collapseWsNlGo fuel after
    else c :: collapseWsNlGo fuel rest

/-- One global pass of `next.replace(/\n{3,}/g, '\n\n')`: every maximal run
of three or more newlines becomes exactly two newlines. -/
def collapseNlRunsGo : Nat → Str → Str
  | 0, s => s
  | _ + 1, [] => []
  | fuel + 1, c :: rest =>
    if c = '\n' then
      let run := c :: rest.takeWhile (fun x => x = '\n')
      let after := rest.dropWhile (fun x => x = '\n')
      (if 3 ≤ run.length then ['\n', '\n'] else run) ++ collapseNlRunsGo fuel after
    else c :: collapseNlRunsGo fuel rest

def stripStandalone (s : Str) : Str := stripStandaloneGo s.length s
def stripWithUrl (s : Str) : Str := stripWithUrlGo s.length s
def stripImage (s : Str) : Str := stripImageGo s.length s
def stripDefinition (s : Str) : Str := stripDefinitionGo s.length s
def collapseHoriz (s : Str) : Str := collapseHorizGo s.length s
def collapseWsNl (s : Str) : Str := collapseWsNlGo s.length s
def collapseNlRuns (s : Str) : Str := collapseNlRunsGo s.length s

/-- `stripCitationArtifacts` (conversationEngine.ts, lines 545-560): the
four citation substitutions in source order, then the three whitespace
substitutions, with the empty-string guard at entry. -/
def stripCitationArtifacts (value : Str) : Str :=
  if value.isEmpty then []
  else
    collapseNlRuns (collapseWsNl (collapseHoriz
      (stripStandalone (stripWithUrl (stripImage (stripDefinition value))))))

/-! ### Invariants of the whitespace normalization passes -/

/-- No two adjacent horizontal whitespace characters (the fixed points of
the `[ \t]{2,}` substitution are exactly the `Chain'`-closures of this). -/
def GoodHT (a b : Char) : Prop := ¬(isHT a = true ∧ isHT b = true)

/-- No whitespace character immediately before a newline (fixed points of
the `\s+\n` substitution). -/
def GoodWsNl (a b : Char) : Prop := ¬(isJsWS a = true ∧ b = '\n')

lemma isJsWS_of_isHT {c : Char} (h : isHT c = true) : isJsWS c = true := by
  simp only [isHT, Bool.or_eq_true, decide_eq_true_eq] at h
  rcases h with h | h <;> subst h <;> decide

lemma not_isHT_of_not_isJsWS {c : Char} (h : isJsWS c = false) : isHT c = false := by
  cases hht : isHT c
  · rfl
  · rw [isJsWS_of_isHT hht] at h; cases h

lemma ne_newline_of_not_isJsWS {c : Char} (h : isJsWS c = false) : c ≠ '\n' := by
  intro hc; subst hc; cases h

lemma afterLastNewline_not_mem (l : Str) : '\n' ∉ afterLastNewline l := by
  intro h
  rw [afterLastNewline, List.mem_reverse] at h
  have := List.mem_takeWhile_imp h
  simp at this

lemma afterLastNewline_suffix (l : Str) :
    (l.reverse.dropWhile (fun c => !(c = '\n'))).reverse ++ afterLastNewline l = l := by
  rw [afterLastNewline, ← List.reverse_append, List.takeWhile_append_dropWhile,
    List.reverse_reverse]

lemma takeWhile_append_all {p : Char → Bool} :
    ∀ xs ys : Str, (∀ x ∈ xs, p x = true) →
      List.takeWhile p (xs ++ ys) = xs ++ List.takeWhile p ys := by
  intro xs ys h
  induction xs with
  | nil => simp
  | cons a t ih =>
    have ha : p a = true := h a (by simp)
    simp only [List.cons_append, List.takeWhile_cons, ha, if_true]
    rw [ih (fun x hx => h x (by simp [hx]))]

lemma afterLastNewline_cons_of_not_mem {l : Str} (h : '\n' ∉ l) :
    afterLastNewline ('\n' :: l) = l := by
  rw [afterLastNewline, List.reverse_cons,
    takeWhile_append_all _ _ (fun x hx => by
      have : x ≠ '\n' := fun he => h (he ▸ List.mem_reverse.mp hx)
      simp [this])]
  simp [List.takeWhile]

lemma chain'_of_no_nl {l : Str} (h : '\n' ∉ l) : List.Chain' GoodWsNl l := by
  induction l with
  | nil => simp
  | cons a t ih =>
    rw [List.chain'_cons']
    refine ⟨fun y hy => ?_, ih (fun hm => h (by simp [hm]))⟩
    have hyt : y ∈ t := List.mem_of_mem_head? hy
    exact fun hcon => h (by simp [hcon.2 ▸ hyt])

lemma chain'_cons_of_no_nl {x : Char} {l : Str} (h : '\n' ∉ l) :
    List.Chain' GoodWsNl (x :: l) := by
  rw [List.chain'_cons']
  refine ⟨fun y hy => ?_, chain'_of_no_nl h⟩
  have hyt : y ∈ l := List.mem_of_mem_head? hy
  exact fun hcon => h (hcon.2 ▸ hyt)

lemma collapseHorizGo_nil : ∀ f, collapseHorizGo f [] = [] := by
  intro f; cases f <;> rfl

lemma collapseWsNlGo_nil : ∀ f, collapseWsNlGo f [] = [] := by
  intro f; cases f <;> rfl

lemma collapseNlRunsGo_nil : ∀ f, collapseNlRunsGo f [] = [] := by
  intro f; cases f <;> rfl

lemma collapseHorizGo_head {b : Char} (hb : isHT b = false) :
    ∀ f t, (collapseHorizGo f (b :: t)).head? = some b := by
  intro f t
  cases f with
  | zero => rfl
  | succ f => simp [collapseHorizGo, hb]

lemma collapseWsNlGo_head {b : Char} (hb : isJsWS b = false) :
    ∀ f t, (collapseWsNlGo f (b :: t)).head? = some b := by
  intro f t
  cases f with
  | zero => rfl
  | succ f => simp [collapseWsNlGo, hb]

lemma collapseNlRunsGo_head {b : Char} (hb : ¬(b = '\n')) :
    ∀ f t, (collapseNlRunsGo f (b :: t)).head? = some b := by
  intro f t
  cases f with
  | zero => rfl
  | succ f => simp [collapseNlRunsGo, hb]

lemma collapseHorizGo_cons_pos {c : Char} {rest : Str} (hc : isHT c = true) (f : Nat) :
    collapseHorizGo (f + 1) (c :: rest) =
      (if 2 ≤ (c :: rest.takeWhile isHT).length then [' '] else c :: rest.takeWhile isHT)
        ++ collapseHorizGo f (rest.dropWhile isHT) := by
  simp [collapseHorizGo, hc]

lemma collapseHorizGo_cons_neg {c : Char} {rest : Str} (hc : isHT c = false) (f : Nat) :
    collapseHorizGo (f + 1) (c :: rest) = c :: collapseHorizGo f rest := by
  simp [collapseHorizGo, hc]

lemma collapseWsNlGo_cons_pos {c : Char} {rest : Str} (hc : isJsWS c = true) (f : Nat) :
    collapseWsNlGo (f + 1) (c :: rest) =
      (if (c :: rest.takeWhile isJsWS).contains '\n' then
          '\n' :: afterLastNewline (c :: rest.takeWhile isJsWS)
        else c :: rest.takeWhile isJsWS)
        ++ collapseWsNlGo f (rest.dropWhile isJsWS) := by
  simp [collapseWsNlGo, hc]

lemma collapseWsNlGo_cons_neg {c : Char} {rest : Str} (hc : isJsWS c = false) (f : Nat) :
    collapseWsNlGo (f + 1) (c :: rest) = c :: collapseWsNlGo f rest := by
  simp [collapseWsNlGo, hc]

lemma collapseNlRunsGo_cons_pos {c : Char} {rest : Str} (hc : c = '\n') (f : Nat) :
    collapseNlRunsGo (f + 1) (c :: rest) =
      (if 3 ≤ (c :: rest.takeWhile (fun x => x = '\n')).length then ['\n', '\n']
        else c :: rest.takeWhile (fun x => x = '\n'))
        ++ collapseNlRunsGo f (rest.dropWhile (fun x => x = '\n')) := by
  simp [collapseNlRunsGo, hc]

lemma collapseNlRunsGo_cons_neg {c : Char} {rest : Str} (hc : ¬(c = '\n')) (f : Nat) :
    collapseNlRunsGo (f + 1) (c :: rest) = c :: collapseNlRunsGo f rest := by
  simp [collapseNlRunsGo, hc]

lemma length_dropWhile_le' (p : Char → Bool) (l : Str) :
    (l.dropWhile p).length ≤ l.length :=
  (show List.Sublist (l.dropWhile p) l from List.dropWhile_sublist ..).length_le

/-- Every character of `collapseHorizGo f s` is a character of `s` or a space. -/
lemma collapseHorizGo_mem :
    ∀ f s (c : Char), c ∈ collapseHorizGo f s → c ∈ s ∨ c = ' ' := by
  intro f
  induction f with
  | zero => intro s c hc; exact Or.inl hc
  | succ f ih =>
    intro s c hc
    match s with
    | [] => simp [collapseHorizGo] at hc
    | a :: rest =>
      by_cases ha : isHT a
      · rw [collapseHorizGo_cons_pos ha] at hc
        rcases List.mem_append.mp hc with hseg | hout
        · by_cases hlen : 2 ≤ (a :: rest.takeWhile isHT).length
          · rw [if_pos hlen] at hseg
            simp at hseg; exact Or.inr hseg
          · rw [if_neg hlen] at hseg
            rcases List.mem_cons.mp hseg with h | h
            · exact Or.inl (h ▸ List.mem_cons_self a rest)
            · exact Or.inl (List.mem_cons_of_mem a
                ((show List.Sublist (rest.takeWhile isHT) rest from
                  List.takeWhile_sublist ..).mem h))
        · rcases ih _ c hout with h | h
          · exact Or.inl (List.mem_cons_of_mem a
              ((show List.Sublist (rest.dropWhile isHT) rest from
                List.dropWhile_sublist ..).mem h))
          · exact Or.inr h
      · rw [collapseHorizGo_cons_neg (by simpa using ha)] at hc
        rcases List.mem_cons.mp hc with h | h
        · exact Or.inl (h ▸ List.mem_cons_self a rest)
        · rcases ih _ c h with h' | h'
          · exact Or.inl (List.mem_cons_of_mem a h')
          · exact Or.inr h'

/-- Every character of `collapseWsNlGo f s` is a character of `s` or a newline. -/
lemma collapseWsNlGo_mem :
    ∀ f s (c : Char), c ∈ collapseWsNlGo f s → c ∈ s ∨ c = '\n' := by
  intro f
  induction f with
  | zero => intro s c hc; exact Or.inl hc
  | succ f ih =>
    intro s c hc
    match s with
    | [] => simp [collapseWsNlGo] at hc
    | a :: rest =>
      have hrunmem : ∀ x : Char, x ∈ a :: rest.takeWhile isJsWS → x ∈ a :: rest := by
        intro x hx
        rcases List.mem_cons.mp hx with h | h
        · exact h ▸ List.mem_cons_self a rest
        · exact List.mem_cons_of_mem a
            ((show List.Sublist (rest.takeWhile isJsWS) rest from
              List.takeWhile_sublist ..).mem h)
      by_cases ha : isJsWS a
      · rw [collapseWsNlGo_cons_pos ha] at hc
        rcases List.mem_append.mp hc with hseg | hout
        · by_cases hnl : (a :: rest.takeWhile isJsWS).contains '\n'
          · simp only [hnl, if_true] at hseg
            rcases List.mem_cons.mp hseg with h | h
            · exact Or.inr h
            · refine Or.inl (hrunmem c ?_)
              have := afterLastNewline_suffix (a :: rest.takeWhile isJsWS)
              rw [← this]
              exact List.mem_append.mpr (Or.inr h)
          · simp only [hnl, if_false] at hseg
            exact Or.inl (hrunmem c hseg)
        · rcases ih _ c hout with h | h
          · exact Or.inl (List.mem_cons_of_mem a
              ((show List.Sublist (rest.dropWhile isJsWS) rest from
                List.dropWhile_sublist ..).mem h))
          · exact Or.inr h
      · rw [collapseWsNlGo_cons_neg (by simpa using ha)] at hc
        rcases List.mem_cons.mp hc with h | h
        · exact Or.inl (h ▸ List.mem_cons_self a rest)
        · rcases ih _ c h with h' | h'
          · exact Or.inl (List.mem_cons_of_mem a h')
          · exact Or.inr h'

/-- The output of the `[ \t]{2,}` pass never contains two adjacent
horizontal whitespace characters. -/
lemma chain'_goodHT_collapseHorizGo :
    ∀ f s, s.length ≤ f → List.Chain' GoodHT (collapseHorizGo f s) := by
  intro f
  induction f with
  | zero =>
    intro s hs
    rw [List.length_eq_zero.mp (Nat.le_zero.mp hs)]
    simp [collapseHorizGo]
  | succ f ih =>
    intro s hs
    match s with
    | [] => simp [collapseHorizGo]
    | a :: rest =>
      have hrest : rest.length ≤ f := Nat.le_of_succ_le_succ hs
      have hafter : (rest.dropWhile isHT).length ≤ f :=
        le_trans (length_dropWhile_le' isHT rest) hrest
      have houthead : ∀ y ∈ (collapseHorizGo f (rest.dropWhile isHT)).head?,
          isHT y = false := by
        intro y hy
        rcases hA : rest.dropWhile isHT with _ | ⟨b, t⟩
        · rw [hA, collapseHorizGo_nil] at hy; simp at hy
        · have hb : isHT b = false := by
            have := List.head?_dropWhile_not isHT rest
            rw [hA] at this; simpa using this
          rw [hA, collapseHorizGo_head hb] at hy
          simp at hy; exact hy ▸ hb
      by_cases ha : isHT a
      · rw [collapseHorizGo_cons_pos ha]
        have hchain : List.Chain' GoodHT (collapseHorizGo f (rest.dropWhile isHT)) :=
          ih _ hafter
        by_cases hlen : 2 ≤ (a :: rest.takeWhile isHT).length
        · rw [if_pos hlen]
          rw [List.singleton_append, List.chain'_cons']
          refine ⟨fun y hy => ?_, hchain⟩
          have hyF := houthead y hy
          intro hcon
          rw [hyF] at hcon
          exact absurd hcon.2 Bool.false_ne_true
        · rw [if_neg hlen]
          have htk : rest.takeWhile isHT = [] := by
            by_contra hne
            rcases List.exists_cons_of_ne_nil hne with ⟨x, xs, hx⟩
            rw [hx] at hlen
            simp at hlen
          rw [htk]
          rw [List.singleton_append, List.chain'_cons']
          refine ⟨fun y hy => ?_, hchain⟩
          have hyF := houthead y hy
          intro hcon
          rw [hyF] at hcon
          exact absurd hcon.2 Bool.false_ne_true
      · rw [collapseHorizGo_cons_neg (by simpa using ha)]
        rw [List.chain'_cons']
        refine ⟨fun y hy => fun hcon => ?_, ih _ hrest⟩
        rw [hcon.1] at ha
        exact ha rfl

/-- The output of the `\s+\n` pass never has a whitespace character
immediately before a newline (in particular it contains no blank line). -/
lemma chain'_goodWsNl_collapseWsNlGo :
    ∀ f s, s.length ≤ f → List.Chain' GoodWsNl (collapseWsNlGo f s) := by
  intro f
  induction f with
  | zero =>
    intro s hs
    rw [List.length_eq_zero.mp (Nat.le_zero.mp hs)]
    simp [collapseWsNlGo]
  | succ f ih =>
    intro s hs
    match s with
    | [] => simp [collapseWsNlGo]
    | a :: rest =>
      have hrest : rest.length ≤ f := Nat.le_of_succ_le_succ hs
      have hafter : (rest.dropWhile isJsWS).length ≤ f :=
        le_trans (length_dropWhile_le' isJsWS rest) hrest
      have houthead : ∀ y ∈ (collapseWsNlGo f (rest.dropWhile isJsWS)).head?,
          isJsWS y = false := by
        intro y hy
        rcases hA : rest.dropWhile isJsWS with _ | ⟨b, t⟩
        · rw [hA, collapseWsNlGo_nil] at hy; simp at hy
        · have hb : isJsWS b = false := by
            have := List.head?_dropWhile_not isJsWS rest
            rw [hA] at this; simpa using this
          rw [hA, collapseWsNlGo_head hb] at hy
          simp at hy; exact hy ▸ hb
      have hbd : ∀ (z y : Char), y ∈ (collapseWsNlGo f (rest.dropWhile isJsWS)).head? →
          GoodWsNl z y := by
        intro z y hy hcon
        exact (ne_newline_of_not_isJsWS (houthead y hy)) hcon.2
      by_cases ha : isJsWS a
      · rw [collapseWsNlGo_cons_pos ha]
        have hchain : List.Chain' GoodWsNl (collapseWsNlGo f (rest.dropWhile isJsWS)) :=
          ih _ hafter
        by_cases hnl : (a :: rest.takeWhile isJsWS).contains '\n'
        · rw [if_pos hnl]
          refine List.Chain'.append ?_ hchain ?_
          · exact chain'_cons_of_no_nl (afterLastNewline_not_mem _)
          · intro x _ y hy; exact hbd x y hy
        · rw [if_neg hnl]
          have hnomem : '\n' ∉ a :: rest.takeWhile isJsWS := by
            intro hm; exact hnl (List.elem_eq_true_of_mem hm)
          refine List.Chain'.append (chain'_of_no_nl hnomem) hchain ?_
          intro x _ y hy; exact hbd x y hy
      · rw [collapseWsNlGo_cons_neg (by simpa using ha)]
        rw [List.chain'_cons']
        refine ⟨fun y hy => fun hcon => ?_, ih _ hrest⟩
        rw [hcon.1] at ha
        exact ha rfl

/-- The `\s+\n` pass preserves the absence of adjacent horizontal
whitespace pairs. -/
lemma chain'_goodHT_collapseWsNlGo :
    ∀ f s, s.length ≤ f → List.Chain' GoodHT s →
      List.Chain' GoodHT (collapseWsNlGo f s) := by
  intro f
  induction f with
  | zero => intro s _ hch; exact hch
  | succ f ih =>
    intro s hs hch
    match s with
    | [] => simp [collapseWsNlGo]
    | a :: rest =>
      have hrest : rest.length ≤ f := Nat.le_of_succ_le_succ hs
      have hafter : (rest.dropWhile isJsWS).length ≤ f :=
        le_trans (length_dropWhile_le' isJsWS rest) hrest
      have houthead : ∀ y ∈ (collapseWsNlGo f (rest.dropWhile isJsWS)).head?,
          isHT y = false := by
        intro y hy
        rcases hA : rest.dropWhile isJsWS with _ | ⟨b, t⟩
        · rw [hA, collapseWsNlGo_nil] at hy; simp at hy
        · have hb : isJsWS b = false := by
            have := List.head?_dropWhile_not isJsWS rest
            rw [hA] at this; simpa using this
          rw [hA, collapseWsNlGo_head hb] at hy
          simp at hy; exact hy ▸ not_isHT_of_not_isJsWS hb
      have hsplit : a :: rest = (a :: rest.takeWhile isJsWS) ++ rest.dropWhile isJsWS := by
        rw [List.cons_append, List.takeWhile_append_dropWhile]
      have hdec := List.chain'_append.mp (hsplit ▸ hch)
      by_cases ha : isJsWS a
      · rw [collapseWsNlGo_cons_pos ha]
        have hchainafter : List.Chain' GoodHT (collapseWsNlGo f (rest.dropWhile isJsWS)) :=
          ih _ hafter hdec.2.1
        by_cases hnl : (a :: rest.takeWhile isJsWS).contains '\n'
        · rw [if_pos hnl]
          refine List.Chain'.append ?_ hchainafter ?_
          · rw [List.chain'_cons']
            constructor
            · intro y _ hcon
              exact absurd hcon.1 (by decide)
            · rcases hsuf : afterLastNewline (a :: rest.takeWhile isJsWS) with _ | ⟨b, t⟩
              · simp
              · have := afterLastNewline_suffix (a :: rest.takeWhile isJsWS)
                rw [hsuf] at this
                have := List.chain'_append.mp (this ▸ hdec.1)
                exact hsuf ▸ this.2.1
          · intro x _ y hy hcon
            rw [houthead y hy] at hcon
            exact absurd hcon.2 Bool.false_ne_true
        · rw [if_neg hnl]
          refine List.Chain'.append hdec.1 hchainafter ?_
          intro x _ y hy hcon
          rw [houthead y hy] at hcon
          exact absurd hcon.2 Bool.false_ne_true
      · rw [collapseWsNlGo_cons_neg (by simpa using ha)]
        rw [List.chain'_cons']
        refine ⟨fun y hy => fun hcon => ?_, ih _ hrest (List.Chain'.tail hch)⟩
        exact ha (isJsWS_of_isHT hcon.1)

/-- A string with no adjacent horizontal-whitespace pair is a fixed point
of the `[ \t]{2,}` pass. -/
lemma collapseHorizGo_fix :
    ∀ f s, s.length ≤ f → List.Chain' GoodHT s → collapseHorizGo f s = s := by
  intro f
  induction f with
  | zero => intro s _ _; rfl
  | succ f ih =>
    intro s hs hch
    match s with
    | [] => simp [collapseHorizGo]
    | a :: rest =>
      have hrest : rest.length ≤ f := Nat.le_of_succ_le_succ hs
      by_cases ha : isHT a
      · match rest with
        | [] =>
          rw [collapseHorizGo_cons_pos ha]
          simp [collapseHorizGo_nil]
        | b :: t =>
          have hab : GoodHT a b := (List.chain'_cons.mp hch).1
          have hb : isHT b = false := by
            cases hb : isHT b
            · rfl
            · exact absurd ⟨ha, hb⟩ hab
          rw [collapseHorizGo_cons_pos ha]
          rw [List.takeWhile_cons_of_neg (by simp [hb]), List.dropWhile_cons_of_neg (by simp [hb])]
          simp only [List.length_cons, List.length_nil]
          rw [if_neg (by omega)]
          rw [ih _ hrest (List.Chain'.tail hch)]
          rfl
      · rw [collapseHorizGo_cons_neg (by simpa using ha)]
        rw [ih _ hrest (List.Chain'.tail hch)]

/-- Inside a whitespace run that continues a `GoodWsNl` chain, the tail of
the run contains no newline. -/
lemma no_nl_in_ws_tail :
    ∀ (rest : Str) (c : Char), isJsWS c = true → List.Chain' GoodWsNl (c :: rest) →
      '\n' ∉ rest.takeWhile isJsWS := by
  intro rest
  induction rest with
  | nil => intro c _ _ h; simp at h
  | cons b t ih =>
    intro c hc hch hmem
    by_cases hb : isJsWS b
    · rw [List.takeWhile_cons_of_pos hb] at hmem
      rcases List.mem_cons.mp hmem with h | h
      · exact (List.chain'_cons.mp hch).1 ⟨hc, h.symm⟩
      · exact ih b hb (List.Chain'.tail hch) h
    · rw [List.takeWhile_cons_of_neg (by simpa using hb)] at hmem
      simp at hmem

/-- A string with no whitespace-before-newline pair is a fixed point of the
`\s+\n` pass. -/
lemma collapseWsNlGo_fix :
    ∀ f s, s.length ≤ f → List.Chain' GoodWsNl s → collapseWsNlGo f s = s := by
  intro f
  induction f with
  | zero => intro s _ _; rfl
  | succ f ih =>
    intro s hs hch
    match s with
    | [] => simp [collapseWsNlGo]
    | a :: rest =>
      have hrest : rest.length ≤ f := Nat.le_of_succ_le_succ hs
      by_cases ha : isJsWS a
      · have htk : '\n' ∉ rest.takeWhile isJsWS := no_nl_in_ws_tail rest a ha hch
        rw [collapseWsNlGo_cons_pos ha]
        have hseg :
            (if (a :: rest.takeWhile isJsWS).contains '\n' then
                '\n' :: afterLastNewline (a :: rest.takeWhile isJsWS)
              else a :: rest.takeWhile isJsWS) = a :: rest.takeWhile isJsWS := by
          by_cases hnl : (a :: rest.takeWhile isJsWS).contains '\n'
          · rw [if_pos hnl]
            have hmem : '\n' ∈ a :: rest.takeWhile isJsWS := List.mem_of_elem_eq_true hnl
            have hA : a = '\n' := by
              rcases List.mem_cons.mp hmem with h | h
              · exact h.symm
              · exact absurd h htk
            rw [← hA] at htk ⊢
            rw [hA, afterLastNewline_cons_of_not_mem (hA ▸ htk), ← hA]
          · exact if_neg hnl
        rw [hseg]
        have hsfx : List.Chain' GoodWsNl (rest.dropWhile isJsWS) := by
          have hsplit : a :: rest = (a :: rest.takeWhile isJsWS) ++ rest.dropWhile isJsWS := by
            rw [List.cons_append, List.takeWhile_append_dropWhile]
          exact (List.chain'_append.mp (hsplit ▸ hch)).2.1
        rw [ih _ (le_trans (length_dropWhile_le' isJsWS rest) hrest) hsfx]
        rw [List.cons_append, List.takeWhile_append_dropWhile]
      · rw [collapseWsNlGo_cons_neg (by simpa using ha)]
        rw [ih _ hrest (List.Chain'.tail hch)]

/-- A string with no whitespace-before-newline pair (hence no two adjacent
newlines) is a fixed point of the `\n{3,}` pass. -/
lemma collapseNlRunsGo_fix :
    ∀ f s, s.length ≤ f → List.Chain' GoodWsNl s → collapseNlRunsGo f s = s := by
  intro f
  induction f with
  | zero => intro s _ _; rfl
  | succ f ih =>
    intro s hs hch
    match s with
    | [] => simp [collapseNlRunsGo]
    | a :: rest =>
      have hrest : rest.length ≤ f := Nat.le_of_succ_le_succ hs
      by_cases ha : a = '\n'
      · match rest with
        | [] =>
          rw [collapseNlRunsGo_cons_pos ha]
          simp [collapseNlRunsGo_nil]
        | b :: t =>
          have hab : GoodWsNl a b := (List.chain'_cons.mp hch).1
          have hb : ¬(b = '\n') := fun hbe => hab ⟨by rw [ha]; decide, hbe⟩
          rw [collapseNlRunsGo_cons_pos ha]
          rw [List.takeWhile_cons_of_neg (by simp [hb]), List.dropWhile_cons_of_neg (by simp [hb])]
          simp only [List.length_cons, List.length_nil]
          rw [if_neg (by omega)]
          rw [ih _ hrest (List.Chain'.tail hch)]
          rfl
      · rw [collapseNlRunsGo_cons_neg ha]
        rw [ih _ hrest (List.Chain'.tail hch)]

lemma stripStandaloneGo_nil : ∀ f, stripStandaloneGo f [] = [] := by
  intro f; cases f <;> rfl

lemma stripWithUrlGo_nil : ∀ f, stripWithUrlGo f [] = [] := by
  intro f; cases f <;> rfl

lemma stripImageGo_nil : ∀ f, stripImageGo f [] = [] := by
  intro f; cases f <;> rfl

/-- Every match of the standalone-citation pattern starts with `[`, so a
bracket-free string is returned unchanged. -/
lemma stripStandaloneGo_id :
    ∀ f s, '[' ∉ s → stripStandaloneGo f s = s := by
  intro f
  induction f with
  | zero => intro s _; rfl
  | succ f ih =>
    intro s hmem
    match s with
    | [] => rfl
    | c :: rest =>
      have hc : ¬(c = '[') := fun h => hmem (h ▸ List.mem_cons_self c rest)
      have hrest : '[' ∉ rest := fun h => hmem (List.mem_cons_of_mem c h)
      simp only [stripStandaloneGo, if_neg hc]
      rw [ih rest hrest]

lemma stripWithUrlGo_id :
    ∀ f s, '[' ∉ s → stripWithUrlGo f s = s := by
  intro f
  induction f with
  | zero => intro s _; rfl
  | succ f ih =>
    intro s hmem
    match s with
    | [] => rfl
    | c :: rest =>
      have hc : ¬(c = '[') := fun h => hmem (h ▸ List.mem_cons_self c rest)
      have hrest : '[' ∉ rest := fun h => hmem (List.mem_cons_of_mem c h)
      simp only [stripWithUrlGo, if_neg hc]
      rw [ih rest hrest]

lemma stripImageGo_cons_bang (f : Nat) (rest : Str) (hrest : '[' ∉ rest) :
    stripImageGo (f + 1) ('!' :: rest) = '!' :: stripImageGo f rest := by
  simp only [stripImageGo, if_true]
  split
  · rename_i r0
    exact absurd (List.mem_cons_self '[' r0) hrest
  · rfl

lemma stripImageGo_id :
    ∀ f s, '[' ∉ s → stripImageGo f s = s := by
  intro f
  induction f with
  | zero => intro s _; rfl
  | succ f ih =>
    intro s hmem
    match s with
    | [] => rfl
    | c :: rest =>
      have hrest : '[' ∉ rest := fun h => hmem (List.mem_cons_of_mem c h)
      by_cases hc : c = '!'
      · subst hc
        rw [stripImageGo_cons_bang f rest hrest, ih rest hrest]
      · simp only [stripImageGo, if_neg hc]
        rw [ih rest hrest]

lemma matchCitationDefinition_none {s : Str} (h : '[' ∉ s) :
    matchCitationDefinition s = none := by
  match s with
  | [] => rfl
  | c :: rest =>
    have hc : ¬(c = '[') := fun he => h (he ▸ List.mem_cons_self c rest)
    simp only [matchCitationDefinition]
    split
    · rename_i r0 heq
      exact absurd (List.mem_cons_self '[' r0) (heq ▸ h)
    · rfl

lemma stripDefinitionGo_cons (f : Nat) (c : Char) (rest : Str) :
    stripDefinitionGo (f + 1) (c :: rest) =
      match matchCitationDefinition (c :: rest) with
      | some r => stripDefinitionGo f r
      | none =>
        match (c :: rest).dropWhile (fun x => !(x = '\n')) with
        | '\n' :: r =>
          ((c :: rest).takeWhile (fun x => !(x = '\n'))) ++ '\n' :: stripDefinitionGo f r
        | _ => (c :: rest).takeWhile (fun x => !(x = '\n')) := rfl

lemma stripDefinitionGo_id :
    ∀ f s, '[' ∉ s → stripDefinitionGo f s = s := by
  intro f
  induction f with
  | zero => intro s _; rfl
  | succ f ih =>
    intro s hmem
    match s with
    | [] => rfl
    | c :: rest =>
      rw [stripDefinitionGo_cons, matchCitationDefinition_none hmem]
      rcases hD : (c :: rest).dropWhile (fun x => !(x = '\n')) with _ | ⟨d, r⟩
      · simp only [hD]
        have hTD : (c :: rest).takeWhile (fun x => !(x = '\n')) ++
            (c :: rest).dropWhile (fun x => !(x = '\n')) = c :: rest :=
          List.takeWhile_append_dropWhile ..
        rw [hD, List.append_nil] at hTD
        exact hTD
      · have hd : d = '\n' := by
          have := List.head?_dropWhile_not (fun x => !(x = '\n')) (c :: rest)
          rw [hD] at this
          simpa using this
        subst hd
        simp only [hD]
        have hsplit : (c :: rest).takeWhile (fun x => !(x = '\n')) ++
            (c :: rest).dropWhile (fun x => !(x = '\n')) = c :: rest :=
          List.takeWhile_append_dropWhile ..
        rw [hD] at hsplit
        have hr : '[' ∉ r := by
          intro hm
          exact hmem (by
            rw [← hsplit]
            exact List.mem_append.mpr (Or.inr (List.mem_cons_of_mem _ hm)))
        rw [ih r hr]
        exact hsplit

lemma stripStandalone_id {s : Str} (h : '[' ∉ s) : stripStandalone s = s :=
  stripStandaloneGo_id _ s h

lemma stripWithUrl_id {s : Str} (h : '[' ∉ s) : stripWithUrl s = s :=
  stripWithUrlGo_id _ s h

lemma stripImage_id {s : Str} (h : '[' ∉ s) : stripImage s = s :=
  stripImageGo_id _ s h

lemma stripDefinition_id {s : Str} (h : '[' ∉ s) : stripDefinition s = s :=
  stripDefinitionGo_id _ s h

lemma chain'_goodHT_collapseHoriz (s : Str) : List.Chain' GoodHT (collapseHoriz s) :=
  chain'_goodHT_collapseHorizGo _ _ le_rfl

lemma chain'_goodWsNl_collapseWsNl (s : Str) : List.Chain' GoodWsNl (collapseWsNl s) :=
  chain'_goodWsNl_collapseWsNlGo _ _ le_rfl

lemma chain'_goodHT_collapseWsNl {s : Str} (h : List.Chain' GoodHT s) :
    List.Chain' GoodHT (collapseWsNl s) :=
  chain'_goodHT_collapseWsNlGo _ _ le_rfl h

lemma collapseHoriz_fix {s : Str} (h : List.Chain' GoodHT s) : collapseHoriz s = s :=
  collapseHorizGo_fix _ _ le_rfl h

lemma collapseWsNl_fix {s : Str} (h : List.Chain' GoodWsNl s) : collapseWsNl s = s :=
  collapseWsNlGo_fix _ _ le_rfl h

lemma collapseNlRuns_fix {s : Str} (h : List.Chain' GoodWsNl s) : collapseNlRuns s = s :=
  collapseNlRunsGo_fix _ _ le_rfl h

lemma collapseHoriz_mem {s : Str} {c : Char} (h : c ∈ collapseHoriz s) : c ∈ s ∨ c = ' ' :=
  collapseHorizGo_mem _ s c h

lemma collapseWsNl_mem {s : Str} {c : Char} (h : c ∈ collapseWsNl s) : c ∈ s ∨ c = '\n' :=
  collapseWsNlGo_mem _ s c h

/-- For a bracket-free input, the four citation passes are the identity and
`stripCitationArtifacts` reduces to the whitespace pipeline; moreover the
`\n{3,}` pass is the identity on the output of the `\s+\n` pass. -/
lemma stripCitationArtifacts_eq_of_no_bracket {s : Str} (h : '[' ∉ s) :
    stripCitationArtifacts s = collapseWsNl (collapseHoriz s) := by
  by_cases hs : s.isEmpty
  · rw [List.isEmpty_iff.mp hs]
    simp [stripCitationArtifacts, collapseHoriz, collapseWsNl,
      collapseHorizGo, collapseWsNlGo]
  · rw [stripCitationArtifacts, if_neg hs, stripDefinition_id h, stripImage_id h,
      stripWithUrl_id h, stripStandalone_id h,
      collapseNlRuns_fix (chain'_goodWsNl_collapseWsNl (collapseHoriz s))]

/-- C1 counterexample: `TextSanitizer.strip` is *not* idempotent.  On
`"[1[2]]"` the standalone-citation pass removes the inner `[2]`, which
creates the new bare citation `[1]`; a second application removes it too:
`strip "[1[2]]" = "[1]"` but `strip (strip "[1[2]]") = ""`. -/
theorem C1_strip_not_idempotent_cex :
    stripCitationArtifacts (stripCitationArtifacts (("[1[2]]").toList)) ≠
      stripCitationArtifacts (("[1[2]]").toList) := by decide

/-- C1 (amended): `TextSanitizer.strip` (`stripCitationArtifacts`) is
idempotent on every input containing no `[` character.  In general
idempotence fails, because removing a citation marker can create a new one
(see the counterexample `"[1[2]]"`): all four citation patterns require a
`[`, so on bracket-free input only the three whitespace substitutions act,
and their composite is idempotent. -/
theorem C1_strip_idempotent_on_bracket_free (s : Str) (h : '[' ∉ s) :
    stripCitationArtifacts (stripCitationArtifacts s) = stripCitationArtifacts s := by
  have h1 : stripCitationArtifacts s = collapseWsNl (collapseHoriz s) :=
    stripCitationArtifacts_eq_of_no_bracket h
  have hv : '[' ∉ collapseWsNl (collapseHoriz s) := by
    intro hm
    rcases collapseWsNl_mem hm with hm' | hm'
    · rcases collapseHoriz_mem hm' with hm'' | hm''
      · exact h hm''
      · exact absurd hm'' (by decide)
    · exact absurd hm' (by decide)
  have hHT : List.Chain' GoodHT (collapseWsNl (collapseHoriz s)) :=
    chain'_goodHT_collapseWsNl (chain'_goodHT_collapseHoriz s)
  have hWs : List.Chain' GoodWsNl (collapseWsNl (collapseHoriz s)) :=
    chain'_goodWsNl_collapseWsNl (collapseHoriz s)
  rw [h1, stripCitationArtifacts_eq_of_no_bracket hv,
    collapseHoriz_fix hHT, collapseWsNl_fix hWs]

/-- Witness for the amended C1 at a concrete input. -/
theorem C1_strip_idempotent_witness :
    '[' ∉ (("a  b\n\n\nc d").toList) ∧
      stripCitationArtifacts (stripCitationArtifacts (("a  b\n\n\nc d").toList)) =
        stripCitationArtifacts (("a  b\n\n\nc d").toList) :=
  ⟨by decide, C1_strip_idempotent_on_bracket_free _ (by decide)⟩

/-- C5: evaluation of the sanitizer at the failing input.  The `\s+\n → \n`
substitution runs before the `\n{3,} → \n\n` substitution and `\s` includes
`\n`, so the run `"\n\n\n"` is consumed entirely by the second whitespace
pass and collapses to a single newline; the `\n{3,}` stage never sees a
newline run of length ≥ 2.  `strip "a\n\n\nb" = "a\nb"` and the output does
not contain `"\n\n"`. -/
theorem C5_newline_collapse_eval :
    stripCitationArtifacts (("a\n\n\nb").toList) = ("a\nb").toList ∧
      ¬(("\n\n").toList <:+: stripCitationArtifacts (("a\n\n\nb").toList)) := by
  decide

/-! ### The conversation engine (`ConversationEngine`) -/

/-- `ConversationFlowStatus` of `sessionStore.ts`. -/
inductive FlowStatus
  | idle | configuring | ready | connecting | streaming | paused | completed | error
deriving DecidableEq

/-- Shorthand for string literals as character lists. -/
def strL (s : String) : Str := s.toList

/-- A participant as used by the engine (identity and prompt-relevant
fields; the request-only fields — sampling temperature, search flag, MCP
tool access — do not influence any control flow modelled here). -/
structure Participant where
  id : Str
  displayName : Str
  persona : Str
  model : Str
deriving DecidableEq

/-- The configuration fields read by the engine. -/
structure ConversationConfig where
  conversationType : Str
  topic : Str
  setting : Str
  mood : Str
  decisionModel : Str
  userName : Option Str
  participants : List Participant
deriving DecidableEq

inductive Role
  | system | user | assistant
deriving DecidableEq

/-- A `GrokChatMessage` of a prompt. -/
structure ChatMessage where
  role : Role
  content : Str
deriving DecidableEq

/-- The engine's private mutable fields together with the session-store
fields it drives (`status`, `lastError`, `sessionId`). -/
structure EngineState where
  abort : Bool
  paused : Bool
  pauseRequested : Bool
  running : Bool
  history : List Str
  pendingUserMessages : List Str
  skipDelayNextTurn : Bool
  userDisplayName : Str
  currentController : Option Bool
  status : FlowStatus
  lastError : Option Str
  sessionId : Option Nat
deriving DecidableEq

/-- `sessionStore.setStatus`: stores the status and clears `lastError`
unless the new status is `error`. -/
def setStatus (s : EngineState) (st : FlowStatus) : EngineState :=
  { s with status := st, lastError := if st = FlowStatus.error then s.lastError else none }

/-- `sessionStore.setError` with a non-null message. -/
def setError (s : EngineState) (e : Str) : EngineState :=
  { s with lastError := some e, status := FlowStatus.error }

/-- `ConversationEngine.pause`. -/
def pause (s : EngineState) : EngineState :=
  if !s.running || s.paused || s.pauseRequested then s
  else { s with pauseRequested := true }

/-- `ConversationEngine.resume`. -/
def resume (s : EngineState) : EngineState :=
  if !s.running || !s.paused then s
  else setStatus { s with paused := false, pauseRequested := false } FlowStatus.streaming

/-- `ConversationEngine.queueUserInterjection`. -/
def queueUserInterjection (s : EngineState) (message : Str) (authorName : Option Str) :
    EngineState :=
  if !s.running then s
  else
    let trimmed := jsTrim message
    if trimmed.isEmpty then s
    else
      let name :=
        match authorName with
        | some a => if (jsTrim a).isEmpty then s.userDisplayName else jsTrim a
        | none => s.userDisplayName
      { s with userDisplayName := name, pendingUserMessages := [trimmed],
               skipDelayNextTurn := true }

/-- `ConversationEngine.clearPendingInterjection`. -/
def clearPendingInterjection (s : EngineState) : EngineState :=
  let s1 := { s with pendingUserMessages := [], skipDelayNextTurn := false }
  if s1.pauseRequested && !s1.paused then { s1 with pauseRequested := false } else s1

/-- `ConversationEngine.stop`: sets the abort flag, aborts the in-flight
controller if any, and marks the session completed. -/
def stop (s : EngineState) : EngineState :=
  if !s.running then s
  else
    setStatus
      { s with abort := true, paused := false, pauseRequested := false,
               pendingUserMessages := [], skipDelayNextTurn := false,
               currentController := s.currentController.map (fun _ => true) }
      FlowStatus.completed

/-- `ConversationEngine.trimHistory`. -/
def trimHistory (h : List Str) : List Str :=
  if 12 < h.length then h.drop (h.length - 12) else h

/-- `ConversationEngine.recordHistoryEntry`. -/
def recordHistoryEntry (history : List Str) (name content : Str) : List Str :=
  let trimmedContent := jsTrim content
  if trimmedContent.isEmpty then history
  else
    let trimmedName := if (jsTrim name).isEmpty then strL "Speaker" else jsTrim name
    trimHistory (history ++ [trimmedName ++ strL ": " ++ trimmedContent])

/-- `ConversationEngine.consumePendingUserMessages`: records every pending
interjection into the history under the configured user display name. -/
def consumePendingUserMessages (s : EngineState) : EngineState × Bool :=
  if s.pendingUserMessages.isEmpty then (s, false)
  else
    ({ s with
        history := s.pendingUserMessages.foldl
          (fun h m => recordHistoryEntry h s.userDisplayName m) s.history,
        pendingUserMessages := [], skipDelayNextTurn := true }, true)

/-- The last `n` elements of a list (`Array.prototype.slice(-n)`, and the
result of `trimHistory`). -/
def lastN (n : Nat) (l : List α) : List α := l.drop (l.length - n)

/-- `Array.prototype.join(sep)`. -/
def joinWith (sep : Str) : List Str → Str
  | [] => []
  | [x] => x
  | x :: xs => x ++ sep ++ joinWith sep xs

/-- JavaScript `a || b` on strings: the empty string is falsy. -/
def jsOr (s d : Str) : Str := if s.isEmpty then d else s

/-- `config.userName?.trim() || 'User'`. -/
def resolveUserName (userName : Option Str) : Str :=
  match userName with
  | some u => if (jsTrim u).isEmpty then strL "User" else jsTrim u
  | none => strL "User"

def apostropheChar : Char := Char.ofNat 39

/-- `buildPrompt` (conversationEngine.ts, lines 434-494). -/
def buildPrompt (config : ConversationConfig) (speaker : Participant)
    (history : List Str) (isFirst : Bool) : List ChatMessage :=
  let systemMessage : ChatMessage :=
    ⟨Role.system,
      strL "Assume the personality of " ++
        (if speaker.persona.isEmpty then speaker.displayName else speaker.persona) ++
        strL ". Roleplay as them and never break character. Do not speak as anyone else. Keep responses concise (one to three sentences). Do not prefix responses with your name."⟩
  if isFirst then
    let others := joinWith (strL ", ")
      ((config.participants.filter (fun p => !(p.id == speaker.id))).map Participant.displayName)
    [systemMessage,
     ⟨Role.user,
       strL "Start a " ++ config.conversationType ++ strL " about " ++
         jsOr config.topic (strL "anything") ++ strL " with " ++ others ++
         strL ". The setting is " ++ jsOr config.setting (strL "anywhere") ++
         strL ". The mood is " ++ config.mood ++ strL ". Begin naturally."⟩]
  else
    let recentHistory := joinWith (strL "\n") (lastN 6 history)
    let userName := resolveUserName config.userName
    let latestEntry := (history.getLast?).getD []
    let userInterjected := List.isPrefixOf (userName ++ [':']) latestEntry
    let historySection :=
      if recentHistory.isEmpty then []
      else strL "Here are the latest messages:\n\n" ++ recentHistory ++ strL "\n\n"
    let followUpInstruction :=
      strL "Stay focused on the topic and respond in character." ++
        (if userInterjected then
          strL " The latest message is from " ++ userName ++
            strL "—address them directly using the name \"" ++ userName ++
            strL "\" and answer their message before continuing the broader discussion."
        else [])
    [systemMessage,
     ⟨Role.user,
       strL "You" ++ [apostropheChar] ++ strL "re the next speaker in a " ++
         config.conversationType ++ strL " about " ++ jsOr config.topic (strL "anything") ++
         strL ". The setting is " ++ jsOr config.setting (strL "anywhere") ++
         strL ". The mood is " ++ config.mood ++ strL ". " ++
         historySection ++ followUpInstruction⟩]

/-- `pickRandomParticipant` (conversationEngine.ts, lines 520-527), with the
random draw `Math.floor(Math.random() * options.length)` modelled as
`k % options.length` for an arbitrary `k` (`none` models the undefined
result of `participants[0]` on an empty list). -/
def pickRandomParticipant (participants : List Participant) (excludeId : Str) (k : Nat) :
    Option Participant :=
  let options := participants.filter (fun p => !(p.id == excludeId))
  if options.isEmpty then participants.head?
  else options[k % options.length]?

/-- `chooseNextSpeaker` (conversationEngine.ts, lines 326-364).  The
network call to the decision model is abstracted by an oracle
`decisionContent`: `some raw` is a successful response with content `raw`
(an absent content field is the empty string), `none` is a request
failure. -/
def chooseNextSpeaker (decisionContent : Option Str) (k : Nat)
    (participants : List Participant) (currentSpeaker : Participant) : Option Participant :=
  if participants.length = 2 then
    some ((participants.find? (fun p => !(p.id == currentSpeaker.id))).getD currentSpeaker)
  else
    match decisionContent with
    | some raw =>
      let candidateName := jsTrim (raw.takeWhile (fun x => !(x = '|')))
      match participants.find?
          (fun p => p.displayName.map Char.toLower == candidateName.map Char.toLower) with
      | some m => some m
      | none => pickRandomParticipant participants currentSpeaker.id k
    | none => pickRandomParticipant participants currentSpeaker.id k

/-- Observable side effects of `start` before the run loop begins. -/
inductive StartEffect
  | toastConfigError | clearMessages | setStatusConnecting | assignSessionId | emitFirstTurn
deriving DecidableEq

/-- The synchronous prefix of `ConversationEngine.start` (lines 43-74): the
running guard, the participant-count guard with its toast, and on success
the state resets, transcript clear, `connecting` status, fresh session id,
and the emission of the initial speaker's turn. -/
def start (s : EngineState) (config : ConversationConfig) (newSessionId : Nat) :
    EngineState × List StartEffect :=
  if s.running then (s, [])
  else if config.participants.length < 2 then (s, [StartEffect.toastConfigError])
  else
    let s1 := { s with abort := false, paused := false, running := true,
                       userDisplayName := resolveUserName config.userName,
                       history := [], pendingUserMessages := [],
                       skipDelayNextTurn := false }
    let s2 := setStatus s1 FlowStatus.connecting
    let s3 := { s2 with sessionId := some newSessionId }
    (s3, [StartEffect.clearMessages, StartEffect.setStatusConnecting,
          StartEffect.assignSessionId, StartEffect.emitFirstTurn])

/-- Events yielded by `streamChatCompletion`. -/
inductive StreamEvent
  | chunk (delta : Str)
  | message (content : Str)
  | done
deriving DecidableEq

/-- The transcript content accumulated by the streaming loop of
`emitMessage`: each chunk re-sanitizes the whole buffer, a final message
event replaces it with the sanitized full content. -/
def streamFinalContent (events : List StreamEvent) : Str :=
  events.foldl
    (fun acc e =>
      match e with
      | StreamEvent.chunk delta => stripCitationArtifacts (acc ++ delta)
      | StreamEvent.message content => stripCitationArtifacts content
      | StreamEvent.done => acc) []

/-- Public control calls that other tasks may issue while the loop is
suspended at an await point. -/
inductive ControlCall
  | stopCall | pauseCall | resumeCall
  | interject (message : Str) (authorName : Option Str)
  | clearCall

def applyControl (s : EngineState) : ControlCall → EngineState
  | ControlCall.stopCall => stop s
  | ControlCall.pauseCall => pause s
  | ControlCall.resumeCall => resume s
  | ControlCall.interject m a => queueUserInterjection s m a
  | ControlCall.clearCall => clearPendingInterjection s

/-- The control calls issued during one await point, applied in order. -/
def applyCalls (s : EngineState) (cs : List ControlCall) : EngineState :=
  cs.foldl applyControl s

/-- The safe-checkpoint transition at the top of `waitIfPaused` (lines
366-373): a requested pause takes effect here. -/
def pauseCheckpoint (s : EngineState) : EngineState :=
  if s.pauseRequested && !s.paused then
    setStatus { s with paused := true, pauseRequested := false } FlowStatus.paused
  else s

/-- The poll loop of `waitIfPaused` (line 375): while paused and not
aborted, sleep 150 ms; control calls may run during each sleep. -/
def pausePollLoop : Nat → EngineState → (Nat → List ControlCall) → EngineState
  | 0, s, _ => s
  | f + 1, s, polls =>
    if s.paused && !s.abort then pausePollLoop f (applyCalls s (polls f)) polls
    else s

def waitIfPaused (pollFuel : Nat) (s : EngineState) (polls : Nat → List ControlCall) :
    EngineState :=
  pausePollLoop pollFuel (pauseCheckpoint s) polls

/-- `emitMessage` (lines 245-323): sets the status, installs a fresh
`AbortController` (`some false`; `some true` once aborted), streams (during
which control calls may run), and either finalizes the message and records
it into the history, or — on a stream exception — swallows the exception
exactly when the controller has been aborted, otherwise rethrows (the
returned `Option Str` is the escaping exception). -/
def emitMessage (s : EngineState) (speaker : Participant) (isFirst : Bool)
    (events : List StreamEvent) (failure : Option Str) (calls : List ControlCall) :
    EngineState × Option Str :=
  let s1 := setStatus s (if isFirst then FlowStatus.connecting else FlowStatus.streaming)
  let s2 := { s1 with currentController := some false }
  let s3 := applyCalls s2 calls
  match failure with
  | none =>
    ({ s3 with history :=
        recordHistoryEntry s3.history speaker.displayName (streamFinalContent events) },
      none)
  | some e => if s3.currentController = some true then (s3, none) else (s3, some e)

/-- Per-iteration oracle: the control calls interleaved at each suspension
point, the decision-model response, the random draw, and the stream
outcome of the turn emission. -/
structure IterEnv where
  delayCalls : List ControlCall
  pausePolls : Nat → List ControlCall
  selectResponse : Option Str
  selectCalls : List ControlCall
  randK : Nat
  streamEvents : List StreamEvent
  streamFailure : Option Str
  streamCalls : List ControlCall

/-- The inner speaker-selection loop (lines 101-117): re-runs the (possibly
network-bound) selection while not aborted and no speaker settled,
re-checking pause and pending interjections after each selection. -/
def selectLoop (pollFuel : Nat) (participants : List Participant) (cur : Participant)
    (env : IterEnv) : Nat → EngineState → EngineState × Option Participant
  | 0, s => (s, none)
  | f + 1, s =>
    if s.abort then (s, none)
    else
      let next := chooseNextSpeaker env.selectResponse env.randK participants cur
      let s1 := applyCalls s env.selectCalls
      let s2 := waitIfPaused pollFuel s1 env.pausePolls
      if s2.abort then (s2, next)
      else
        match consumePendingUserMessages s2 with
        | (s3, true) => selectLoop pollFuel participants cur env f s3
        | (s3, false) =>
          match next with
          | some p => (s3, some p)
          | none => selectLoop pollFuel participants cur env f s3

/-- The main run loop (lines 85-140).  Returns the display names of the
speakers whose turns were emitted, the final state, and the exception that
escaped the loop body, if any. -/
def runLoopGo (participants : List Participant) (env : Nat → IterEnv)
    (pollFuel selFuel : Nat) :
    Nat → EngineState → Participant → List Str × EngineState × Option Str
  | 0, s, _ => ([], s, none)
  | fuel + 1, s, cur =>
    if s.abort then ([], s, none)
    else
      let env0 := env fuel
      let sA := if s.skipDelayNextTurn then { s with skipDelayNextTurn := false }
                else applyCalls s env0.delayCalls
      let sB := waitIfPaused pollFuel sA env0.pausePolls
      if sB.abort then ([], sB, none)
      else
        let sC := (consumePendingUserMessages sB).1
        match selectLoop pollFuel participants cur env0 selFuel sC with
        | (sD, none) => ([], sD, none)
        | (sD, some next) =>
          if sD.abort then ([], sD, none)
          else
            let sE := waitIfPaused pollFuel sD env0.pausePolls
            if sE.abort then ([], sE, none)
            else
              match consumePendingUserMessages sE with
              | (sF, true) => runLoopGo participants env pollFuel selFuel fuel sF cur
              | (sF, false) =>
                match emitMessage sF next false env0.streamEvents env0.streamFailure
                    env0.streamCalls with
                | (sG, none) =>
                  let r := runLoopGo participants env pollFuel selFuel fuel sG next
                  (next.displayName :: r.1, r.2)
                | (sG, some e) => ([next.displayName], sG, some e)

/-- The loop wrapper (lines 76-167): the `completed` transition on clean
exit, the catch branch reporting the loop error, and the `finally` cleanup
of the run state. -/
def runConversationLoop (participants : List Participant) (env : Nat → IterEnv)
    (pollFuel selFuel fuel : Nat) (s : EngineState) (cur : Participant) :
    List Str × EngineState :=
  let r := runLoopGo participants env pollFuel selFuel fuel s cur
  let s1 := r.2.1
  let s2 :=
    match r.2.2 with
    | some e => setError s1 e
    | none => if !s1.abort then setStatus s1 FlowStatus.completed else s1
  let s3 := { s2 with running := false, abort := false, paused := false,
                      pauseRequested := false, pendingUserMessages := [],
                      skipDelayNextTurn := false, currentController := none }
  let s4 := if s3.status ≠ FlowStatus.completed then setStatus s3 FlowStatus.idle else s3
  (r.1, s4)

/-! ### Claim theorems for the engine controls -/

/-- A concrete idle engine state used by witnesses. -/
def sampleIdleState : EngineState :=
  { abort := false, paused := false, pauseRequested := false, running := false,
    history := [], pendingUserMessages := [], skipDelayNextTurn := false,
    userDisplayName := strL "User", currentController := none,
    status := FlowStatus.idle, lastError := none, sessionId := none }

/-- A concrete running engine state used by witnesses. -/
def sampleRunningState : EngineState :=
  { sampleIdleState with running := true, status := FlowStatus.streaming }

/-- C10: `clearPendingInterjection` empties the pending-interjection slot
and the skip-delay flag in every state, leaves `paused` and `running`
untouched, and cancels a pause request exactly when the pause has not yet
taken effect. -/
theorem C10_clearPendingInterjection_frame (s : EngineState) :
    (clearPendingInterjection s).pendingUserMessages = [] ∧
    (clearPendingInterjection s).skipDelayNextTurn = false ∧
    (clearPendingInterjection s).paused = s.paused ∧
    (clearPendingInterjection s).running = s.running ∧
    (s.pauseRequested = true → s.paused = false →
      (clearPendingInterjection s).pauseRequested = false) ∧
    (s.paused = true → (clearPendingInterjection s).pauseRequested = s.pauseRequested) := by
  simp only [clearPendingInterjection]
  by_cases h : (s.pauseRequested && !s.paused) = true
  · rw [if_pos h]
    refine ⟨rfl, rfl, rfl, rfl, fun _ _ => rfl, fun hp => ?_⟩
    rw [Bool.and_eq_true, hp] at h
    simp at h
  · rw [if_neg h]
    refine ⟨rfl, rfl, rfl, rfl, fun hr hp => ?_, fun _ => rfl⟩
    rw [hr, hp] at h
    simp at h

/-- Witness for C10 at a concrete state. -/
theorem C10_clearPendingInterjection_witness :
    (clearPendingInterjection
        { sampleRunningState with
            pauseRequested := true,
            pendingUserMessages := [strL "hi"] }).pendingUserMessages = [] :=
  (C10_clearPendingInterjection_frame _).1

/-- C4 counterexample: in a running state with a pending pause request that
has not yet taken effect (`paused = false`, `pauseRequested = true`),
`resume()` returns early (its guard requires `paused`), so it neither
clears the pause-requested flag nor sets the status to `streaming`. -/
theorem C4_resume_pending_pause_cex :
    ¬((resume { sampleRunningState with
          pauseRequested := true,
          status := FlowStatus.connecting }).pauseRequested = false ∧
      (resume { sampleRunningState with
          pauseRequested := true,
          status := FlowStatus.connecting }).status = FlowStatus.streaming) := by
  decide

/-- C4 (amended): `resume()` clears both the paused and pause-requested
flags and sets the external status to `streaming` for every state that is
running *and currently paused*; when the engine is not paused — even if a
pause is merely requested — `resume()` is a no-op and does not cancel the
pending pause request. -/
theorem C4_resume_amended (s : EngineState) (hrun : s.running = true) :
    (s.paused = true →
      (resume s).paused = false ∧ (resume s).pauseRequested = false ∧
        (resume s).status = FlowStatus.streaming) ∧
    (s.paused = false → resume s = s) := by
  constructor
  · intro hp
    unfold resume
    rw [hrun, hp]
    simp [setStatus]
  · intro hp
    unfold resume
    rw [hrun, hp]
    simp

/-- Witness for the amended C4 at a concrete paused state. -/
theorem C4_resume_amended_witness :
    (resume { sampleRunningState with
        paused := true,
        status := FlowStatus.paused }).status = FlowStatus.streaming :=
  ((C4_resume_amended _ rfl).1 rfl).2.2

/-- C9: starting a non-running engine with fewer than two participants
reports the configuration error synchronously and changes nothing: the
state (hence status and session id) is untouched, and the only effect is
the toast — no transcript clear, no `connecting` transition, no session id
assignment, no emitted message, and the engine is not running. -/
theorem C9_start_requires_two_participants (s : EngineState) (config : ConversationConfig)
    (newSessionId : Nat) (hrun : s.running = false)
    (hlen : config.participants.length < 2) :
    start s config newSessionId = (s, [StartEffect.toastConfigError]) ∧
    (start s config newSessionId).1.running = false ∧
    (start s config newSessionId).1.status = s.status ∧
    (start s config newSessionId).1.sessionId = s.sessionId ∧
    StartEffect.toastConfigError ∈ (start s config newSessionId).2 ∧
    StartEffect.clearMessages ∉ (start s config newSessionId).2 ∧
    StartEffect.setStatusConnecting ∉ (start s config newSessionId).2 ∧
    StartEffect.assignSessionId ∉ (start s config newSessionId).2 ∧
    StartEffect.emitFirstTurn ∉ (start s config newSessionId).2 := by
  have hstart : start s config newSessionId = (s, [StartEffect.toastConfigError]) := by
    unfold start
    rw [hrun]
    simp [hlen]
  refine ⟨hstart, ?_, ?_, ?_, ?_, ?_, ?_, ?_, ?_⟩ <;> rw [hstart] <;> simp [hrun]

/-- A concrete one-participant configuration used by witnesses. -/
def onePersonConfig : ConversationConfig where
  conversationType := strL "conversation"
  topic := []
  setting := []
  mood := strL "friendly"
  decisionModel := strL "grok-4"
  userName := none
  participants := [{ id := strL "a", displayName := strL "A", persona := [], model := strL "grok-4" }]

/-- Witness for C9 at a concrete one-participant configuration. -/
theorem C9_start_requires_two_participants_witness :
    start sampleIdleState onePersonConfig 7 =
      (sampleIdleState, [StartEffect.toastConfigError]) :=
  (C9_start_requires_two_participants _ _ _ rfl (by simp [onePersonConfig])).1

/-- C2: with exactly two participants with distinct ids, speaker selection
returns the participant that is not the current speaker, for every value of
the decision-model oracle and of the random source — i.e. deterministically
and without consulting the completion backend. -/
theorem C2_two_participants_alternate (p q current : Participant)
    (resp : Option Str) (k : Nat) (hpq : p.id ≠ q.id)
    (hcur : current.id = p.id ∨ current.id = q.id) :
    chooseNextSpeaker resp k [p, q] current =
      some (if current.id = p.id then q else p) ∧
    (∀ (resp2 : Option Str) (k2 : Nat),
      chooseNextSpeaker resp2 k2 [p, q] current =
        chooseNextSpeaker resp k [p, q] current) := by
  have key : ∀ (r : Option Str) (n : Nat),
      chooseNextSpeaker r n [p, q] current =
        some (if current.id = p.id then q else p) := by
    intro r n
    unfold chooseNextSpeaker
    rw [if_pos (show ([p, q] : List Participant).length = 2 from rfl)]
    rcases hcur with hc | hc
    · rw [if_pos hc]
      have hp : (!(p.id == current.id)) = false := by
        rw [hc]; simp
      have hq : (!(q.id == current.id)) = true := by
        rw [hc]
        simp only [Bool.not_eq_true']
        exact beq_eq_false_iff_ne.mpr (fun he => hpq he.symm)
      simp [List.find?, hp, hq]
    · have hne : current.id ≠ p.id := fun he => hpq (by rw [← he, ← hc])
      rw [if_neg hne]
      have hp : (!(p.id == current.id)) = true := by
        simp only [Bool.not_eq_true']
        exact beq_eq_false_iff_ne.mpr (fun he => hne he.symm)
      simp [List.find?, hp]
  exact ⟨key resp k, fun r2 k2 => (key r2 k2).trans (key resp k).symm⟩

/-- Witness for C2 at two concrete participants. -/
theorem C2_two_participants_alternate_witness :
    chooseNextSpeaker none 0
        [{ id := strL "a", displayName := strL "A", persona := [], model := [] },
         { id := strL "b", displayName := strL "B", persona := [], model := [] }]
        { id := strL "a", displayName := strL "A", persona := [], model := [] } =
      some { id := strL "b", displayName := strL "B", persona := [], model := [] } := by
  have h := (C2_two_participants_alternate
    { id := strL "a", displayName := strL "A", persona := [], model := [] }
    { id := strL "b", displayName := strL "B", persona := [], model := [] }
    { id := strL "a", displayName := strL "A", persona := [], model := [] }
    none 0 (by decide) (Or.inl rfl)).1
  rw [h]
  rfl

/-- C3: with at least three participants with pairwise-distinct ids, the
random fallback `pickRandomParticipant participants currentSpeaker.id k`
returns a participant and its id differs from the current speaker's id, for
every value `k` of the random source. -/
theorem C3_fallback_never_returns_current (ps : List Participant) (cur : Participant)
    (k : Nat) (h3 : 3 ≤ ps.length) (hnd : (ps.map Participant.id).Nodup)
    (hmem : cur ∈ ps) :
    ∃ p, pickRandomParticipant ps cur.id k = some p ∧ p.id ≠ cur.id := by
  have hopt : ¬(ps.filter (fun p => !(p.id == cur.id))).isEmpty = true := by
    intro hempty
    rw [List.isEmpty_iff, List.filter_eq_nil_iff] at hempty
    have hall : ∀ p ∈ ps, p.id = cur.id := by
      intro p hp
      have := hempty p hp
      simpa using this
    match ps, h3 with
    | a :: b :: rest, _ =>
      have hab : a.id ≠ b.id := by
        have := hnd
        rw [List.map_cons, List.map_cons, List.nodup_cons] at this
        exact fun he => this.1 (he ▸ List.mem_cons_self _ _)
      exact hab ((hall a (List.mem_cons_self _ _)).trans
        (hall b (List.mem_cons_of_mem _ (List.mem_cons_self _ _))).symm)
  unfold pickRandomParticipant
  rw [if_neg hopt]
  have hlen : 0 < (ps.filter (fun p => !(p.id == cur.id))).length := by
    rcases hf : ps.filter (fun p => !(p.id == cur.id)) with _ | ⟨x, xs⟩
    · rw [hf] at hopt; simp at hopt
    · rw [hf]; simp
  have hidx : k % (ps.filter (fun p => !(p.id == cur.id))).length <
      (ps.filter (fun p => !(p.id == cur.id))).length := Nat.mod_lt _ hlen
  refine ⟨(ps.filter (fun p => !(p.id == cur.id)))[k % (ps.filter
    (fun p => !(p.id == cur.id))).length], ?_, ?_⟩
  · exact List.getElem?_eq_getElem hidx
  · have hm : (ps.filter (fun p => !(p.id == cur.id)))[k % (ps.filter
        (fun p => !(p.id == cur.id))).length] ∈
        ps.filter (fun p => !(p.id == cur.id)) := List.getElem_mem _
    have := List.of_mem_filter hm
    simpa using this

/-- Witness for C3 at three concrete participants. -/
theorem C3_fallback_never_returns_current_witness :
    ∃ p, pickRandomParticipant
        [{ id := strL "a", displayName := strL "A", persona := [], model := [] },
         { id := strL "b", displayName := strL "B", persona := [], model := [] },
         { id := strL "c", displayName := strL "C", persona := [], model := [] }]
        (strL "b") 5 = some p ∧ p.id ≠ strL "b" :=
  C3_fallback_never_returns_current _
    { id := strL "b", displayName := strL "B", persona := [], model := [] } 5
    (by decide) (by decide)
    (List.mem_cons_of_mem _ (List.mem_cons_self _ _))

/-! ### History buffer (C6) -/

/-- The `"Name: text"` string that `recordHistoryEntry` appends for an
accepted entry. -/
def formatHistoryEntry (name content : Str) : Str :=
  (if (jsTrim name).isEmpty then strL "Speaker" else jsTrim name) ++ strL ": " ++ jsTrim content

lemma trimHistory_eq_lastN (h : List Str) : trimHistory h = lastN 12 h := by
  unfold trimHistory lastN
  by_cases h12 : 12 < h.length
  · rw [if_pos h12]
  · rw [if_neg h12]
    have : h.length - 12 = 0 := by omega
    rw [this, List.drop_zero]

lemma lastN_of_length_le {l : List α} {n : Nat} (h : l.length ≤ n) : lastN n l = l := by
  unfold lastN
  have : l.length - n = 0 := by omega
  rw [this, List.drop_zero]

lemma lastN_length_le (n : Nat) (l : List α) : (lastN n l).length ≤ n := by
  unfold lastN
  rw [List.length_drop]
  omega

lemma lastN_suffix (n : Nat) (l : List α) : lastN n l <:+ l := List.drop_suffix _ _

lemma lastN_eq_of_suffix {s l : List α} {n : Nat} (h : s <:+ l) (hn : n ≤ s.length) :
    lastN n s = lastN n l := by
  obtain ⟨t, rfl⟩ := h
  unfold lastN
  rw [List.length_append]
  have harith : t.length + s.length - n = t.length + (s.length - n) := by omega
  rw [harith, List.drop_append]

lemma lastN_append_lastN (n : Nat) (a b : List α) :
    lastN n (lastN n a ++ b) = lastN n (a ++ b) := by
  by_cases h : a.length ≤ n
  · rw [lastN_of_length_le h]
  · push_neg at h
    apply lastN_eq_of_suffix
    · obtain ⟨t, ht⟩ := lastN_suffix n a
      exact ⟨t, by rw [← List.append_assoc, ht]⟩
    · have hlen : (lastN n a).length = n := by
        unfold lastN
        rw [List.length_drop]
        omega
      rw [List.length_append, hlen]
      omega

lemma recordHistoryEntry_skip {h : List Str} {name content : Str}
    (hc : (jsTrim content).isEmpty = true) : recordHistoryEntry h name content = h := by
  unfold recordHistoryEntry
  rw [if_pos hc]

lemma recordHistoryEntry_accept {h : List Str} {name content : Str}
    (hc : ¬(jsTrim content).isEmpty = true) :
    recordHistoryEntry h name content = lastN 12 (h ++ [formatHistoryEntry name content]) := by
  unfold recordHistoryEntry formatHistoryEntry
  rw [if_neg hc, trimHistory_eq_lastN]

lemma foldl_recordHistoryEntry (entries : List (Str × Str)) :
    ∀ h : List Str, h.length ≤ 12 →
      List.foldl (fun acc e => recordHistoryEntry acc e.1 e.2) h entries =
        lastN 12 (h ++ (entries.filter (fun e => !(jsTrim e.2).isEmpty)).map
          (fun e => formatHistoryEntry e.1 e.2)) := by
  induction entries with
  | nil =>
    intro h hh
    simp only [List.foldl_nil, List.filter_nil, List.map_nil, List.append_nil]
    exact (lastN_of_length_le hh).symm
  | cons e rest ih =>
    intro h hh
    rw [List.foldl_cons]
    by_cases hc : (jsTrim e.2).isEmpty = true
    · rw [recordHistoryEntry_skip hc]
      rw [ih h hh]
      congr 2
      rw [List.filter_cons]
      simp [hc]
    · rw [recordHistoryEntry_accept hc]
      rw [ih _ (lastN_length_le 12 _)]
      rw [lastN_append_lastN, List.append_assoc]
      congr 2
      rw [List.filter_cons]
      simp only [hc, Bool.not_false, if_true]
      simp [List.map_cons]

/-- C6: after any sequence of `recordHistoryEntry` calls starting from the
empty buffer, the history is exactly the last 12 formatted accepted
entries; in particular it never exceeds 12 entries, it is a suffix of the
accepted entries in order (oldest evicted first), and a call whose content
trims to the empty string leaves the buffer unchanged. -/
theorem C6_history_window (entries : List (Str × Str)) :
    List.foldl (fun acc e => recordHistoryEntry acc e.1 e.2) [] entries =
      lastN 12 ((entries.filter (fun e => !(jsTrim e.2).isEmpty)).map
        (fun e => formatHistoryEntry e.1 e.2)) ∧
    (List.foldl (fun acc e => recordHistoryEntry acc e.1 e.2) [] entries).length ≤ 12 ∧
    List.foldl (fun acc e => recordHistoryEntry acc e.1 e.2) [] entries <:+
      (entries.filter (fun e => !(jsTrim e.2).isEmpty)).map
        (fun e => formatHistoryEntry e.1 e.2) ∧
    (∀ (h : List Str) (name content : Str), (jsTrim content).isEmpty = true →
      recordHistoryEntry h name content = h) := by
  have h1 := foldl_recordHistoryEntry entries [] (by simp)
  rw [List.nil_append] at h1
  refine ⟨h1, ?_, ?_, fun h name content hc => recordHistoryEntry_skip hc⟩
  · rw [h1]; exact lastN_length_le _ _
  · rw [h1]; exact lastN_suffix _ _

/-- Witness for C6: a whitespace-only entry leaves a concrete buffer
unchanged. -/
theorem C6_history_window_witness :
    recordHistoryEntry [strL "A: x"] (strL "B") (strL "   ") = [strL "A: x"] :=
  (C6_history_window []).2.2.2 _ _ _ (by decide)

/-! ### Interjection-to-prompt flow (C7) -/

lemma lastN_getLast? {l : List α} {n : Nat} (hn : 1 ≤ n) (hl : l ≠ []) :
    (lastN n l).getLast? = l.getLast? := by
  obtain ⟨t, ht⟩ := lastN_suffix n l
  have hlen : 0 < (lastN n l).length := by
    unfold lastN
    rw [List.length_drop]
    have := List.length_pos.mpr hl
    omega
  conv_rhs => rw [← ht]
  exact (List.getLast?_append_of_ne_nil t (List.length_pos.mp hlen)).symm

lemma joinWith_cons_cons (sep a b : Str) (t : List Str) :
    joinWith sep (a :: b :: t) = a ++ sep ++ joinWith sep (b :: t) := rfl

lemma joinWith_suffix_of_getLast (sep : Str) :
    ∀ {l : List Str} {x : Str}, l.getLast? = some x → x <:+ joinWith sep l := by
  intro l
  induction l with
  | nil => intro x hx; simp at hx
  | cons a t ih =>
    intro x hx
    match t with
    | [] =>
      simp at hx
      rw [hx]
      exact List.suffix_refl _
    | b :: t2 =>
      rw [List.getLast?_cons_cons] at hx
      obtain ⟨u, hu⟩ := ih hx
      refine ⟨a ++ sep ++ u, ?_⟩
      rw [joinWith_cons_cons, ← hu]
      simp [List.append_assoc]

lemma exists_append_left {t l : Str} (x : Str) (h : ∃ p q, l = p ++ t ++ q) :
    ∃ p q, x ++ l = p ++ t ++ q := by
  obtain ⟨p, q, hp⟩ := h
  exact ⟨x ++ p, q, by rw [hp]; simp [List.append_assoc]⟩

lemma exists_append_right {t l : Str} (y : Str) (h : ∃ p q, l = p ++ t ++ q) :
    ∃ p q, l ++ y = p ++ t ++ q := by
  obtain ⟨p, q, hp⟩ := h
  exact ⟨p, q ++ y, by rw [hp]; simp [List.append_assoc]⟩

lemma buildPrompt_nonFirst (config : ConversationConfig) (speaker : Participant)
    (history : List Str) :
    (buildPrompt config speaker history false)[1]? =
      some (ChatMessage.mk Role.user
        (strL "You" ++ [apostropheChar] ++ strL "re the next speaker in a " ++
          config.conversationType ++ strL " about " ++ jsOr config.topic (strL "anything") ++
          strL ". The setting is " ++ jsOr config.setting (strL "anywhere") ++
          strL ". The mood is " ++ config.mood ++ strL ". " ++
          (if (joinWith (strL "\n") (lastN 6 history)).isEmpty then []
           else strL "Here are the latest messages:\n\n" ++
             joinWith (strL "\n") (lastN 6 history) ++ strL "\n\n") ++
          (strL "Stay focused on the topic and respond in character." ++
            (if List.isPrefixOf (resolveUserName config.userName ++ [':'])
                ((history.getLast?).getD []) then
              strL " The latest message is from " ++ resolveUserName config.userName ++
                strL "—address them directly using the name \"" ++
                resolveUserName config.userName ++
                strL "\" and answer their message before continuing the broader discussion."
            else [])))) := rfl

/-- C7: with the configured user display name `"Riley"`, queueing the
interjection `"Jumping in."` and consuming it before the next turn makes
the next non-first prompt contain the history line `"Riley: Jumping in."`
and the instruction fragment `name "Riley"`. -/
theorem C7_interjection_reaches_prompt (s : EngineState) (config : ConversationConfig)
    (speaker : Participant) (hrun : s.running = true)
    (hname : s.userDisplayName = strL "Riley")
    (hconf : config.userName = some (strL "Riley")) :
    ∃ m : ChatMessage,
      (buildPrompt config speaker
        ((consumePendingUserMessages
          (queueUserInterjection s (strL "Jumping in.") none)).1).history false)[1]? =
        some m ∧
      (∃ pre post, m.content = pre ++ strL "Riley: Jumping in." ++ post) ∧
      (∃ pre post, m.content = pre ++ strL "name \"Riley\"" ++ post) := by
  -- the queued interjection
  have hs1 : queueUserInterjection s (strL "Jumping in.") none =
      { s with userDisplayName := s.userDisplayName,
               pendingUserMessages := [strL "Jumping in."],
               skipDelayNextTurn := true } := by
    unfold queueUserInterjection
    rw [hrun]
    rw [show jsTrim (strL "Jumping in.") = strL "Jumping in." from by decide]
    rfl
  -- the consumed interjection becomes the newest history entry
  have hhist : ((consumePendingUserMessages
      (queueUserInterjection s (strL "Jumping in.") none)).1).history =
      lastN 12 (s.history ++ [strL "Riley: Jumping in."]) := by
    rw [hs1]
    unfold consumePendingUserMessages
    simp only [List.isEmpty_cons, List.foldl_cons, List.foldl_nil]
    rw [hname]
    rw [recordHistoryEntry_accept (by decide)]
    rw [show formatHistoryEntry (strL "Riley") (strL "Jumping in.") =
      strL "Riley: Jumping in." from by decide]
    rw [if_neg (show ¬(false = true) from by decide)]
  rw [buildPrompt_nonFirst, hhist]
  have hHne : lastN 12 (s.history ++ [strL "Riley: Jumping in."]) ≠ [] := by
    apply List.length_pos.mp
    unfold lastN
    rw [List.length_drop, List.length_append]
    simp
    omega
  have hlast : (lastN 12 (s.history ++ [strL "Riley: Jumping in."])).getLast? =
      some (strL "Riley: Jumping in.") := by
    rw [lastN_getLast? (by omega) (by simp)]
    exact List.getLast?_concat _
  have hres : resolveUserName config.userName = strL "Riley" := by
    rw [hconf]
    decide
  have hlast6 : (lastN 6 (lastN 12 (s.history ++ [strL "Riley: Jumping in."]))).getLast? =
      some (strL "Riley: Jumping in.") := by
    rw [lastN_getLast? (by omega) hHne, hlast]
  obtain ⟨u, hu⟩ := joinWith_suffix_of_getLast (strL "\n") hlast6
  have hRHne : ¬(joinWith (strL "\n")
      (lastN 6 (lastN 12 (s.history ++ [strL "Riley: Jumping in."])))).isEmpty = true := by
    rw [List.isEmpty_iff]
    intro hjoin
    rw [hjoin] at hu
    have := List.append_eq_nil.mp hu
    exact absurd this.2 (by decide)
  have hpref : List.isPrefixOf (resolveUserName config.userName ++ [':'])
      (((lastN 12 (s.history ++ [strL "Riley: Jumping in."])).getLast?).getD []) = true := by
    rw [hres, hlast]
    decide
  rw [if_neg hRHne, if_pos hpref, hres]
  refine ⟨_, rfl, ?_, ?_⟩
  · -- the history line occurs inside the history section
    apply exists_append_right
    apply exists_append_left
    refine ⟨strL "Here are the latest messages:\n\n" ++ u, strL "\n\n", ?_⟩
    rw [← hu]
    simp [List.append_assoc]
  · -- the instruction fragment occurs inside the follow-up instruction
    apply exists_append_left
    apply exists_append_left
    refine ⟨strL " The latest message is from " ++ strL "Riley" ++
      strL "—address them directly using the ", strL " and answer their message before continuing the broader discussion.", ?_⟩
    decide

/-- Witness scenario for C7. -/
def rileyState : EngineState :=
  { sampleRunningState with userDisplayName := strL "Riley" }

def rileyConfig : ConversationConfig :=
  { onePersonConfig with userName := some (strL "Riley") }

def sampleSpeaker : Participant :=
  { id := strL "a", displayName := strL "A", persona := [], model := strL "grok-4" }

/-- Witness for C7 at a concrete state and configuration. -/
theorem C7_interjection_reaches_prompt_witness :
    ∃ m : ChatMessage,
      (buildPrompt rileyConfig sampleSpeaker
        ((consumePendingUserMessages
          (queueUserInterjection rileyState (strL "Jumping in.") none)).1).history false)[1]? =
        some m ∧
      (∃ pre post, m.content = pre ++ strL "Riley: Jumping in." ++ post) ∧
      (∃ pre post, m.content = pre ++ strL "name \"Riley\"" ++ post) :=
  C7_interjection_reaches_prompt rileyState rileyConfig sampleSpeaker rfl rfl rfl

/-! ### Stop / cancellation semantics (C8) -/

lemma pauseCheckpoint_abort (s : EngineState) : (pauseCheckpoint s).abort = s.abort := by
  unfold pauseCheckpoint
  split <;> rfl

lemma pausePollLoop_of_abort {s : EngineState} (h : s.abort = true) :
    ∀ (f : Nat) (polls : Nat → List ControlCall), pausePollLoop f s polls = s := by
  intro f polls
  cases f with
  | zero => rfl
  | succ f => simp [pausePollLoop, h]

lemma waitIfPaused_abort_true {s : EngineState} (h : s.abort = true) (f : Nat)
    (polls : Nat → List ControlCall) : (waitIfPaused f s polls).abort = true := by
  unfold waitIfPaused
  rw [pausePollLoop_of_abort (by rw [pauseCheckpoint_abort]; exact h),
    pauseCheckpoint_abort]
  exact h

lemma stop_of_running {s : EngineState} (hrun : s.running = true) :
    stop s = setStatus
      { s with abort := true, paused := false, pauseRequested := false,
               pendingUserMessages := [], skipDelayNextTurn := false,
               currentController := s.currentController.map (fun _ => true) }
      FlowStatus.completed := by
  unfold stop
  rw [hrun]
  rfl

lemma emitMessage_cancelled (s : EngineState) (speaker : Participant)
    (events : List StreamEvent) (e : Str) (hrun : s.running = true) :
    (emitMessage s speaker false events (some e) [ControlCall.stopCall]).2 = none ∧
    (emitMessage s speaker false events (some e) [ControlCall.stopCall]).1.history =
      s.history ∧
    (emitMessage s speaker false events (some e) [ControlCall.stopCall]).1.lastError =
      none ∧
    (emitMessage s speaker false events (some e) [ControlCall.stopCall]).1.status =
      FlowStatus.completed := by
  unfold emitMessage applyCalls
  simp only [List.foldl_cons, List.foldl_nil, applyControl]
  rw [stop_of_running (by exact hrun)]
  simp [setStatus]

lemma runLoopGo_of_abort (participants : List Participant) (env : Nat → IterEnv)
    (pollFuel selFuel : Nat) :
    ∀ (fuel : Nat) (s : EngineState) (cur : Participant), s.abort = true →
      runLoopGo participants env pollFuel selFuel fuel s cur = ([], s, none) := by
  intro fuel s cur h
  cases fuel with
  | zero => rfl
  | succ fuel => simp [runLoopGo, h]

lemma runLoopGo_abort_during_delay (participants : List Participant) (env : Nat → IterEnv)
    (pollFuel selFuel fuel : Nat) (s : EngineState) (cur : Participant)
    (h1 : s.abort = false) (h2 : s.skipDelayNextTurn = false)
    (h3 : (applyCalls s (env fuel).delayCalls).abort = true) :
    runLoopGo participants env pollFuel selFuel (fuel + 1) s cur =
      ([], waitIfPaused pollFuel (applyCalls s (env fuel).delayCalls)
        (env fuel).pausePolls, none) := by
  simp only [runLoopGo]
  rw [h1, h2]
  rw [if_neg (show ¬(false = true) from by decide),
    if_neg (show ¬(false = true) from by decide),
    if_pos (waitIfPaused_abort_true h3 _ _)]

/-- C8: `stop()` on a running engine sets the abort flag, aborts the
in-flight cancellable operation, and sets the external status to
`Completed` directly (in `stop` itself, not at a loop checkpoint); a stream
exception that arrives while the controller has been aborted by a `stop()`
issued during the stream is swallowed by `emitMessage` (no escaping error,
no history record, no error-sink report, final status `Completed`); and
once the abort flag is observed — at the loop guard or at the first
checkpoint after `stop()` ran during the inter-turn delay — the run loop
emits no further turns and reports no error. -/
theorem C8_stop_cancels_and_halts_loop :
    (∀ s : EngineState, s.running = true →
      (stop s).abort = true ∧ (stop s).status = FlowStatus.completed ∧
      (stop s).lastError = none ∧
      (∀ b : Bool, s.currentController = some b →
        (stop s).currentController = some true)) ∧
    (∀ (s : EngineState) (speaker : Participant) (events : List StreamEvent) (e : Str),
      s.running = true →
      (emitMessage s speaker false events (some e) [ControlCall.stopCall]).2 = none ∧
      (emitMessage s speaker false events (some e) [ControlCall.stopCall]).1.history =
        s.history ∧
      (emitMessage s speaker false events (some e) [ControlCall.stopCall]).1.lastError =
        none ∧
      (emitMessage s speaker false events (some e) [ControlCall.stopCall]).1.status =
        FlowStatus.completed) ∧
    (∀ (participants : List Participant) (env : Nat → IterEnv)
        (pollFuel selFuel fuel : Nat) (s : EngineState) (cur : Participant),
      s.abort = true →
      runLoopGo participants env pollFuel selFuel fuel s cur = ([], s, none)) ∧
    (∀ (participants : List Participant) (env : Nat → IterEnv)
        (pollFuel selFuel fuel : Nat) (s : EngineState) (cur : Participant),
      s.abort = false → s.skipDelayNextTurn = false →
      (applyCalls s (env fuel).delayCalls).abort = true →
      (runLoopGo participants env pollFuel selFuel (fuel + 1) s cur).1 = [] ∧
      (runLoopGo participants env pollFuel selFuel (fuel + 1) s cur).2.2 = none) := by
  refine ⟨?_, ?_, ?_, ?_⟩
  · intro s hrun
    rw [stop_of_running hrun]
    refine ⟨rfl, rfl, rfl, fun b hb => ?_⟩
    simp [setStatus, hb]
  · intro s speaker events e hrun
    exact emitMessage_cancelled s speaker events e hrun
  · intro participants env pollFuel selFuel fuel s cur h
    exact runLoopGo_of_abort participants env pollFuel selFuel fuel s cur h
  · intro participants env pollFuel selFuel fuel s cur h1 h2 h3
    rw [runLoopGo_abort_during_delay participants env pollFuel selFuel fuel s cur h1 h2 h3]
    exact ⟨rfl, rfl⟩

/-- Witness for C8 at a concrete running state. -/
theorem C8_stop_cancels_and_halts_loop_witness :
    (stop { sampleRunningState with currentController := some false }).status =
        FlowStatus.completed ∧
      (stop { sampleRunningState with
        currentController := some false }).currentController = some true :=
  ⟨(C8_stop_cancels_and_halts_loop.1 _ rfl).2.1,
    (C8_stop_cancels_and_halts_loop.1 _ rfl).2.2.2 false rfl⟩
